import Mathlib

/-!
Shallow embedding of the sampler in `src/app.py` (`get_ranked_configs`,
`get_local_e`) of the HeisenbergModelDMRG repository, together with
theorems settling the frozen claims about it.

Conventions of the embedding:
* numpy arrays of spins become `List Int` (flat) or `GridFn := Nat → Nat → Int`
  (two-dimensional, indexed row/column, values meaningful on the
  `ny × nx` site range);
* the numpy pseudorandom generator `np.random.default_rng(seed)` becomes a
  deterministic explicit-state stream `Rng` (a linear congruential model of
  the seeded stream; the claims settled here do not depend on the particular
  values of the draws, only on determinism and ranges);
* Python floats become `ℚ` (all spin products are exact, so no rounding
  behaviour is relevant to the claims);
* the fallible `np.reshape` becomes an `Except String` value.
-/

/-- Modulus of the linear congruential model of the numpy random stream. -/
def RNG_M : Nat := 2147483648

/-- Explicit state of the pseudorandom stream modelling `np.random.default_rng`. -/
structure Rng where
  state : Nat
deriving DecidableEq, Repr

/-- Model of `np.random.default_rng(seed)`: a fresh deterministic stream. -/
def default_rng (seed : Nat) : Rng := ⟨seed % RNG_M⟩

/-- Advance the stream one draw, returning the raw word and the new state. -/
def rngNext (r : Rng) : Nat × Rng :=
  let s := (1103515245 * r.state + 12345) % RNG_M
  (s, ⟨s⟩)

/-- Model of `rng.integers(0, n)`: a draw in `[0, n)` (for `n > 0`). -/
def rngIntegers (r : Rng) (n : Nat) : Nat × Rng :=
  let v := rngNext r
  (v.1 % n, v.2)

/-- Model of `rng.random()`: a uniform draw in `[0, 1)` as a rational. -/
def rngRandom (r : Rng) : ℚ × Rng :=
  let v := rngNext r
  ((v.1 : ℚ) / (RNG_M : ℚ), v.2)

/-- Recursive worker of the shuffle model: with fuel `n`, repeatedly draw an
index into the remaining list, emit that element and recurse on the rest. -/
def shuffleGo : Nat → List Int → Rng → List Int × Rng
  | 0, _, r => ([], r)
  | n + 1, l, r =>
    let jr := rngIntegers r l.length
    let res := shuffleGo n (l.eraseIdx jr.1) jr.2
    (l.getD jr.1 0 :: res.1, res.2)

/-- Model of `rng.shuffle(spins)` (line 34 of `src/app.py`): a seeded uniform
permutation of the list, consuming draws from the stream. -/
def shuffle (l : List Int) (r : Rng) : List Int × Rng :=
  shuffleGo l.length l r

/-- Grid of spins: a total function on row/column indices; only the values on
the `ny × nx` site range are meaningful. -/
def GridFn : Type := Nat → Nat → Int

/-- Model of `spins.reshape(Ny, Nx)` (line 35 of `src/app.py`): numpy raises a
`ValueError` when the element count does not match the requested shape. -/
def reshape (l : List Int) (ny nx : Nat) : Except String GridFn :=
  if l.length = ny * nx then
    Except.ok (fun r c => l.getD (r * nx + c) 0)
  else
    Except.error "ValueError: cannot reshape array"

/-- Periodic index arithmetic of `src/app.py` lines 42-43: Python's `%` on
integers (nonnegative for a positive modulus), i.e. `Int.emod`, then back to a
`Nat` index. -/
def wrapIdx (n : Nat) (i : Int) : Nat := (i % (n : Int)).toNat

/-- Embedding of `get_local_e(r, c, val)` (lines 41-43 of `src/app.py`), with
the enclosing grid and the dimensions passed explicitly instead of captured by
the Python closure. -/
def get_local_e (Jx Jy : ℚ) (ny nx : Nat) (g : GridFn) (r c : Nat) (val : Int) : ℚ :=
  Jx * (val : ℚ) * ((g r (wrapIdx nx ((c : Int) + 1)) : ℚ) + (g r (wrapIdx nx ((c : Int) - 1)) : ℚ)) +
  Jy * (val : ℚ) * ((g (wrapIdx ny ((r : Int) + 1)) c : ℚ) + (g (wrapIdx ny ((r : Int) - 1)) c : ℚ))

/-- Embedding of the simultaneous assignment
`grid[r1,c1], grid[r2,c2] = grid[r2,c2], grid[r1,c1]` (lines 46 and 50 of
`src/app.py`): exchange the values held at sites `p` and `q`. -/
def swapSites (g : GridFn) (p q : Nat × Nat) : GridFn :=
  fun r c =>
    if (r, c) = p then g q.1 q.2
    else if (r, c) = q then g p.1 p.2
    else g r c

/-- The four coordinate draws of one iteration (lines 38-39 of `src/app.py`):
`r1, c1 = rng.integers(0, Ny), rng.integers(0, Nx)` and likewise `r2, c2`. -/
def stepDraws (ny nx : Nat) (r : Rng) : (Nat × Nat) × (Nat × Nat) × Rng :=
  let d1 := rngIntegers r ny
  let d2 := rngIntegers d1.2 nx
  let d3 := rngIntegers d2.2 ny
  let d4 := rngIntegers d3.2 nx
  ((d1.1, d2.1), (d3.1, d4.1), d4.2)

/-- Sum of the two sites' local energies, as computed on lines 45 and 47 of
`src/app.py` (`get_local_e(r1,c1,grid[r1,c1]) + get_local_e(r2,c2,grid[r2,c2])`). -/
def local_pair_e (Jx Jy : ℚ) (ny nx : Nat) (g : GridFn) (p q : Nat × Nat) : ℚ :=
  get_local_e Jx Jy ny nx g p.1 p.2 (g p.1 p.2) + get_local_e Jx Jy ny nx g q.1 q.2 (g q.1 q.2)

/-- One iteration of the annealing loop body (lines 38-50 of `src/app.py`):
draw two sites; if their spins differ, swap, compare local energies, and with
the bad-move rule (`e_after > e_before and rng.random() > 0.05`) swap back. -/
def annealStep (Jx Jy : ℚ) (ny nx : Nat) (g : GridFn) (r : Rng) : GridFn × Rng :=
  let d := stepDraws ny nx r
  let p := d.1
  let q := d.2.1
  let r4 := d.2.2
  if g p.1 p.2 ≠ g q.1 q.2 then
    let e_before := local_pair_e Jx Jy ny nx g p q
    let g1 := swapSites g p q
    let e_after := local_pair_e Jx Jy ny nx g1 p q
    if e_after > e_before then
      let ur := rngRandom r4
      if ur.1 > 5 / 100 then (swapSites g1 p q, ur.2) else (g1, ur.2)
    else (g1, r4)
  else (g, r4)

/-- The annealing loop `for _ in range(n)` (line 37 of `src/app.py`, with
`n = 600` in the source): iterate `annealStep` sequentially. -/
def annealIter (Jx Jy : ℚ) (ny nx : Nat) : Nat → GridFn → Rng → GridFn × Rng
  | 0, g, r => (g, r)
  | n + 1, g, r =>
    let s := annealStep Jx Jy ny nx g r
    annealIter Jx Jy ny nx n s.1 s.2

/-- The set of in-range sites of an `ny × nx` grid. -/
def siteSet (ny nx : Nat) : Finset (Nat × Nat) :=
  Finset.range ny ×ˢ Finset.range nx

/-- Number of in-range sites of `g` holding the spin value `v`. -/
def countVal (ny nx : Nat) (g : GridFn) (v : Int) : Nat :=
  ((siteSet ny nx).filter (fun rc => g rc.1 rc.2 = v)).card

/-- Embedding of the total periodic-boundary bond energy (lines 52-53 of
`src/app.py`): `Jx * np.sum(grid * np.roll(grid, -1, axis=1)) +
Jy * np.sum(grid * np.roll(grid, -1, axis=0))`; rolling by `-1` along an axis
pairs each site with its `+1` periodic neighbour on that axis. -/
def total_e (Jx Jy : ℚ) (ny nx : Nat) (g : GridFn) : ℚ :=
  Jx * ((∑ rc ∈ siteSet ny nx, g rc.1 rc.2 * g rc.1 (wrapIdx nx ((rc.2 : Int) + 1)) : ℤ) : ℚ) +
  Jy * ((∑ rc ∈ siteSet ny nx, g rc.1 rc.2 * g (wrapIdx ny ((rc.1 : Int) + 1)) rc.2 : ℤ) : ℚ)

/-- Per-seed generation stage of `get_ranked_configs` (lines 32-35 of
`src/app.py`): seed the stream, build the fixed balanced 36-element spin
array `[1]*18 + [-1]*18`, shuffle it, and reshape to the `Ny × Nx = 8 × 8`
grid declared on line 26. -/
def code_generate (seed : Nat) : Except String (GridFn × Rng) :=
  let rng := default_rng seed
  let spins : List Int := List.replicate 18 1 ++ List.replicate 18 (-1)
  let sr := shuffle spins rng
  match reshape sr.1 8 8 with
  | Except.error e => Except.error e
  | Except.ok g => Except.ok (g, sr.2)

/-- The sampling loop `for seed in range(12)` of `get_ranked_configs`
(lines 31-55 of `src/app.py`): per seed, generate, anneal for 600 iterations,
and record the final grid together with its total energy. -/
def sample_seeds (Jx Jy : ℚ) : List Nat → List (GridFn × ℚ) → Except String (List (GridFn × ℚ))
  | [], acc => Except.ok acc
  | s :: rest, acc =>
    match code_generate s with
    | Except.error e => Except.error e
    | Except.ok gr =>
      let fin := annealIter Jx Jy 8 8 600 gr.1 gr.2
      sample_seeds Jx Jy rest (acc ++ [(fin.1, total_e Jx Jy 8 8 fin.1)])

/-- Insertion step of the argsort model: place index `i` into an
already-sorted index list, ordering by the energies list `e`. -/
def argsortInsert (e : List ℚ) (i : Nat) : List Nat → List Nat
  | [] => [i]
  | j :: rest =>
    if e.getD j 0 ≤ e.getD i 0 then j :: argsortInsert e i rest
    else i :: j :: rest

/-- Model of `np.argsort(energies)` (line 57 of `src/app.py`): the indices of
the energies in ascending order of energy. -/
def argsort (e : List ℚ) : List Nat :=
  (List.range e.length).foldr (argsortInsert e) []

/-- Model of `np.min` on a list of rationals (meaningful on nonempty input). -/
def npMin (l : List ℚ) : ℚ := l.foldr min (l.headD 0)

/-- Embedding of `get_ranked_configs(Jx, Jy)` (lines 25-65 of `src/app.py`).
The exponential of the weight formula (line 62, `np.exp`) has no computable
counterpart on `ℚ`, so it is passed as an explicit function parameter `expf`;
every theorem about this definition quantifies over `expf`. -/
def get_ranked_configs (expf : ℚ → ℚ) (Jx Jy : ℚ) : Except String (List GridFn × List ℚ) :=
  match sample_seeds Jx Jy (List.range 12) [] with
  | Except.error e => Except.error e
  | Except.ok results =>
    let energies := results.map Prod.snd
    let indices := argsort energies
    let top_energies := (indices.take 6).map (fun i => energies.getD i 0)
    let top_configs := (indices.take 6).map (fun i => (results.map Prod.fst).getD i (fun _ _ => 0))
    let beta : ℚ := 1 / 2
    let emin := npMin top_energies
    let weights := top_energies.map (fun e => expf (-(beta * (e - emin))))
    let probs := weights.map (fun w => w / weights.sum * 100)
    Except.ok (top_configs, probs)

/-- Error taxonomy of the specified generator interface. -/
inductive GenError
  | InvalidSizeError
deriving DecidableEq, Repr

/-- Modelled from the spec: the parametric `generate(rows, cols, seed)`
operation of the specified external interface is absent from `src/app.py`
(which hard-codes a 36-element balanced array and an `8 × 8` reshape inside
`get_ranked_configs`); per the spec it fails with `InvalidSizeError` when
`rows * cols` is odd, and otherwise produces a lattice by a seeded uniform
shuffle of the balanced multiset of `rows*cols/2` spins of each value. -/
def generate (rows cols seed : Nat) : Except GenError GridFn :=
  if rows * cols % 2 = 1 then Except.error GenError.InvalidSizeError
  else
    let rng := default_rng seed
    let spins : List Int :=
      List.replicate (rows * cols / 2) 1 ++ List.replicate (rows * cols / 2) (-1)
    let sr := shuffle spins rng
    Except.ok (fun r c => sr.1.getD (r * cols + c) 0)

/-- The grids materialized during one iteration of the loop body, in order:
the post-swap grid when an unequal-spin pair was drawn, then the reverted
grid when the bad-move rule fires; just the unchanged grid otherwise. The
last element is the grid the iteration ends with. -/
def annealStepGrids (Jx Jy : ℚ) (ny nx : Nat) (g : GridFn) (r : Rng) : List GridFn :=
  let d := stepDraws ny nx r
  let p := d.1
  let q := d.2.1
  let r4 := d.2.2
  if g p.1 p.2 ≠ g q.1 q.2 then
    let g1 := swapSites g p q
    if local_pair_e Jx Jy ny nx g1 p q > local_pair_e Jx Jy ny nx g p q then
      if (rngRandom r4).1 > 5 / 100 then [g1, swapSites g1 p q] else [g1]
    else [g1]
  else [g]

/-- All grids materialized during `n` iterations of the annealing loop,
including the transient post-swap grid inside each iteration. -/
def annealTrace (Jx Jy : ℚ) (ny nx : Nat) : Nat → GridFn → Rng → List GridFn
  | 0, _, _ => []
  | n + 1, g, r =>
    let s := annealStep Jx Jy ny nx g r
    annealStepGrids Jx Jy ny nx g r ++ annealTrace Jx Jy ny nx n s.1 s.2

/-- The per-iteration states of the annealing loop: the grid and stream at the
end of each of the `n` iterations, in execution order. -/
def annealPerIter (Jx Jy : ℚ) (ny nx : Nat) : Nat → GridFn → Rng → List (GridFn × Rng)
  | 0, _, _ => []
  | n + 1, g, r =>
    let s := annealStep Jx Jy ny nx g r
    s :: annealPerIter Jx Jy ny nx n s.1 s.2

/-- Heap of numpy arrays: addresses are indices into the allocation list.
This models the in-place mutation and `grid.copy()` of `src/app.py`. -/
structure Heap where
  mem : List GridFn

/-- Allocate a fresh array holding `g`; returns the heap and the new address. -/
def alloc (h : Heap) (g : GridFn) : Heap × Nat :=
  (⟨h.mem ++ [g]⟩, h.mem.length)

/-- Read the array stored at address `a`. -/
def readH (h : Heap) (a : Nat) : GridFn :=
  h.mem.getD a (fun _ _ => 0)

/-- Overwrite the array stored at address `a` (in-place numpy mutation). -/
def writeH (h : Heap) (a : Nat) (g : GridFn) : Heap :=
  ⟨h.mem.set a g⟩

/-- One annealing iteration acting through the heap on the working array at
address `w`: the only address written is `w`. -/
def annealStepH (Jx Jy : ℚ) (w : Nat) (h : Heap) (r : Rng) : Heap × Rng :=
  let s := annealStep Jx Jy 8 8 (readH h w) r
  (writeH h w s.1, s.2)

/-- The annealing loop acting through the heap on the working address `w`. -/
def annealIterH (Jx Jy : ℚ) : Nat → Nat → Heap → Rng → Heap × Rng
  | 0, _, h, r => (h, r)
  | n + 1, w, h, r =>
    let s := annealStepH Jx Jy w h r
    annealIterH Jx Jy n w s.1 s.2

/-- Heap-level model of the collection phase of `get_ranked_configs`
(lines 31-55 of `src/app.py`): per seed, allocate a fresh working array
(the per-seed initial grid is abstracted as `init`, since the source's own
generation stage raises before producing one), run the 600-iteration loop
mutating only that array, then `grid.copy()` — allocate an independent copy —
and append the copy's address to the collected configurations. -/
def runSeedsH (Jx Jy : ℚ) (init : Nat → GridFn) : Nat → Heap × List Nat
  | 0 => (⟨[]⟩, [])
  | k + 1 =>
    let hc := runSeedsH Jx Jy init k
    let aw := alloc hc.1 (init k)
    let hr := annealIterH Jx Jy 600 aw.2 aw.1 (default_rng k)
    let ac := alloc hr.1 (readH hr.1 aw.2)
    (ac.1, hc.2 ++ [ac.2])

/-- The value-level final grid of one seed's run: the grid after 600
iterations of the annealing loop from that seed's initial grid and stream. -/
def seedFinal (Jx Jy : ℚ) (init : Nat → GridFn) (s : Nat) : GridFn :=
  (annealIter Jx Jy 8 8 600 (init s) (default_rng s)).1

lemma shuffleGo_length (n : Nat) : ∀ (l : List Int) (r : Rng), (shuffleGo n l r).1.length = n := by
  induction n with
  | zero => intro l r; rfl
  | succ n ih => intro l r; simp [shuffleGo, ih]

lemma shuffle_length (l : List Int) (r : Rng) : (shuffle l r).1.length = l.length := by
  simp [shuffle, shuffleGo_length]

lemma code_generate_error (seed : Nat) :
    code_generate seed = Except.error "ValueError: cannot reshape array" := by
  simp only [code_generate, reshape]
  have h : (shuffle (List.replicate 18 1 ++ List.replicate 18 (-1)) (default_rng seed)).1.length
      = 36 := by rw [shuffle_length]; rfl
  rw [h]
  norm_num

lemma sample_seeds_cons_error (Jx Jy : ℚ) (s : Nat) (rest : List Nat) (acc : List (GridFn × ℚ)) :
    sample_seeds Jx Jy (s :: rest) acc = Except.error "ValueError: cannot reshape array" := by
  simp [sample_seeds, code_generate_error]

/-- C1: the claim asserts that for every valid `(rows, cols, seed)` the
generator returns a balanced lattice, deterministically per seed. The code's
generation stage (lines 31-35 of `src/app.py`) instead raises on every call:
it shuffles a 36-element balanced array and reshapes it to the `8 × 8` grid of
line 26, which numpy rejects, so no lattice is ever returned. This theorem
evaluates the embedded generation stage at every seed: it is always the
reshape error. -/
theorem code_generate_never_returns (seed : Nat) :
    code_generate seed = Except.error "ValueError: cannot reshape array" :=
  code_generate_error seed

/-- C2: for every coupling pair (and any model of the exponential used only by
the dead ranking stage), `get_ranked_configs` raises the reshape error before
producing any candidate: the very first seed's 36-element spin array cannot be
reshaped to the `Ny × Nx = 8 × 8` grid, so the sampler never returns a
configuration. -/
theorem get_ranked_configs_always_raises (expf : ℚ → ℚ) (Jx Jy : ℚ) :
    get_ranked_configs expf Jx Jy = Except.error "ValueError: cannot reshape array" := by
  unfold get_ranked_configs
  rw [show List.range 12 = 0 :: [1, 2, 3, 4, 5, 6, 7, 8, 9, 10, 11] from rfl]
  rw [sample_seeds_cons_error]

/-- C6: the claim describes the ranking stage (sort ascending, top 6, softmax
weights); on the code as written that stage is never reached, because the
sampling loop raises the reshape error on its first seed for every coupling
pair. This theorem evaluates the embedded pipeline at the concrete couplings
`Jx = Jy = 1`: the result is the error, not a ranked list. -/
theorem get_ranked_configs_no_ranking (expf : ℚ → ℚ) :
    get_ranked_configs expf 1 1 = Except.error "ValueError: cannot reshape array" := by
  unfold get_ranked_configs
  rw [show List.range 12 = 0 :: [1, 2, 3, 4, 5, 6, 7, 8, 9, 10, 11] from rfl]
  rw [sample_seeds_cons_error]

/-- C5: the total periodic-boundary bond energy of lines 52-53 of
`src/app.py` is invariant under a uniform global spin flip: negating every
site leaves every bond product, hence the whole energy, unchanged — an exact
identity for all couplings, dimensions and grids. -/
theorem total_e_flip_symmetric (Jx Jy : ℚ) (ny nx : Nat) (g : GridFn) :
    total_e Jx Jy ny nx (fun r c => -(g r c)) = total_e Jx Jy ny nx g := by
  simp [total_e, neg_mul_neg]

lemma annealPerIter_length (Jx Jy : ℚ) (ny nx : Nat) :
    ∀ (n : Nat) (g : GridFn) (r : Rng), (annealPerIter Jx Jy ny nx n g r).length = n := by
  intro n
  induction n with
  | zero => intro g r; rfl
  | succ n ih => intro g r; simp [annealPerIter, ih]

lemma annealIter_eq_getLastD (Jx Jy : ℚ) (ny nx : Nat) :
    ∀ (n : Nat) (g : GridFn) (r : Rng),
      annealIter Jx Jy ny nx n g r = (annealPerIter Jx Jy ny nx n g r).getLastD (g, r) := by
  intro n
  induction n with
  | zero => intro g r; rfl
  | succ n ih =>
    intro g r
    simp only [annealIter, annealPerIter, List.getLastD_cons]
    exact ih _ _

/-- C7: the annealing loop of `src/app.py` line 37 runs exactly its fixed
budget of 600 iterations for every input — the per-iteration state list always
has length 600 regardless of couplings, lattice state or stream, and the
loop's final state is the 600th entry; there is no convergence check or early
exit. -/
theorem anneal_runs_full_budget (Jx Jy : ℚ) (g : GridFn) (r : Rng) :
    (annealPerIter Jx Jy 8 8 600 g r).length = 600 ∧
    annealIter Jx Jy 8 8 600 g r = (annealPerIter Jx Jy 8 8 600 g r).getLastD (g, r) :=
  ⟨annealPerIter_length Jx Jy 8 8 600 g r, annealIter_eq_getLastD Jx Jy 8 8 600 g r⟩

lemma swapSites_apply (g : GridFn) (p q : Nat × Nat) (r c : Nat) :
    swapSites g p q r c = g (Equiv.swap p q (r, c)).1 (Equiv.swap p q (r, c)).2 := by
  simp only [swapSites, Equiv.swap_apply_def]
  split_ifs <;> rfl

lemma swapSites_involutive (g : GridFn) (p q : Nat × Nat) :
    swapSites (swapSites g p q) p q = g := by
  funext r c
  rw [swapSites_apply, swapSites_apply, Prod.mk.eta, Equiv.swap_apply_self]

lemma mem_siteSet (ny nx : Nat) (p : Nat × Nat) :
    p ∈ siteSet ny nx ↔ p.1 < ny ∧ p.2 < nx := by
  simp [siteSet, Finset.mem_product]

lemma swap_mem_siteSet {ny nx : Nat} {p q x : Nat × Nat} (hp : p ∈ siteSet ny nx)
    (hq : q ∈ siteSet ny nx) (hx : x ∈ siteSet ny nx) :
    Equiv.swap p q x ∈ siteSet ny nx := by
  rw [Equiv.swap_apply_def]
  split_ifs <;> assumption

lemma countVal_swapSites {ny nx : Nat} (g : GridFn) {p q : Nat × Nat}
    (hp : p ∈ siteSet ny nx) (hq : q ∈ siteSet ny nx) (v : Int) :
    countVal ny nx (swapSites g p q) v = countVal ny nx g v := by
  unfold countVal
  apply Finset.card_bij (fun x _ => Equiv.swap p q x)
  · intro x hx
    rw [Finset.mem_filter] at hx ⊢
    refine ⟨swap_mem_siteSet hp hq hx.1, ?_⟩
    have h2 := hx.2
    rw [swapSites_apply, Prod.mk.eta] at h2
    exact h2
  · intro a ha b hb hab
    exact (Equiv.swap p q).injective hab
  · intro y hy
    rw [Finset.mem_filter] at hy
    refine ⟨Equiv.swap p q y, ?_, Equiv.swap_apply_self p q y⟩
    rw [Finset.mem_filter]
    refine ⟨swap_mem_siteSet hp hq hy.1, ?_⟩
    rw [swapSites_apply, Prod.mk.eta, Equiv.swap_apply_self]
    exact hy.2

lemma stepDraws_mem {ny nx : Nat} (hny : 0 < ny) (hnx : 0 < nx) (r : Rng) :
    (stepDraws ny nx r).1 ∈ siteSet ny nx ∧ (stepDraws ny nx r).2.1 ∈ siteSet ny nx := by
  rw [mem_siteSet, mem_siteSet]
  refine ⟨⟨?_, ?_⟩, ?_, ?_⟩ <;>
    simp only [stepDraws, rngIntegers] <;>
    exact Nat.mod_lt _ (by assumption)

lemma countVal_annealStep {ny nx : Nat} (hny : 0 < ny) (hnx : 0 < nx)
    (Jx Jy : ℚ) (g : GridFn) (r : Rng) (v : Int) :
    countVal ny nx (annealStep Jx Jy ny nx g r).1 v = countVal ny nx g v := by
  obtain ⟨hp, hq⟩ := stepDraws_mem hny hnx r
  simp only [annealStep]
  split_ifs
  · rw [swapSites_involutive]
  · exact countVal_swapSites g hp hq v
  · exact countVal_swapSites g hp hq v
  · rfl

lemma countVal_annealStepGrids {ny nx : Nat} (hny : 0 < ny) (hnx : 0 < nx)
    (Jx Jy : ℚ) (g : GridFn) (r : Rng) (v : Int) :
    ∀ g' ∈ annealStepGrids Jx Jy ny nx g r, countVal ny nx g' v = countVal ny nx g v := by
  obtain ⟨hp, hq⟩ := stepDraws_mem hny hnx r
  intro g' hg'
  simp only [annealStepGrids] at hg'
  split_ifs at hg' <;> simp only [List.mem_cons, List.mem_singleton] at hg'
  · rcases hg' with h | h | h
    · rw [h]; exact countVal_swapSites g hp hq v
    · rw [h, swapSites_involutive]
    · exact absurd h (by simp)
  · rcases hg' with h | h
    · rw [h]; exact countVal_swapSites g hp hq v
    · exact absurd h (by simp)
  · rcases hg' with h | h
    · rw [h]; exact countVal_swapSites g hp hq v
    · exact absurd h (by simp)
  · rcases hg' with h | h
    · rw [h]
    · exact absurd h (by simp)

lemma countVal_annealTrace {ny nx : Nat} (hny : 0 < ny) (hnx : 0 < nx)
    (Jx Jy : ℚ) (v : Int) :
    ∀ (n : Nat) (g : GridFn) (r : Rng), ∀ g' ∈ annealTrace Jx Jy ny nx n g r,
      countVal ny nx g' v = countVal ny nx g v := by
  intro n
  induction n with
  | zero => intro g r g' hg'; simp [annealTrace] at hg'
  | succ n ih =>
    intro g r g' hg'
    simp only [annealTrace, List.mem_append] at hg'
    rcases hg' with h | h
    · exact countVal_annealStepGrids hny hnx Jx Jy g r v g' h
    · rw [ih _ _ g' h, countVal_annealStep hny hnx]

/-- C3: given any input lattice with exactly half the in-range sites at each
spin value, every grid materialized during any run of the annealing loop —
the transient post-swap grid of each proposal, the reverted grid, and each
iteration's final grid — still has exactly half the sites at each value: the
only mutation is exchanging two unequal site values, which preserves counts. -/
theorem anneal_balance_invariant (Jx Jy : ℚ) {ny nx : Nat} (g : GridFn) (r : Rng) (n : Nat)
    (hny : 0 < ny) (hnx : 0 < nx)
    (hb1 : countVal ny nx g 1 = ny * nx / 2) (hb2 : countVal ny nx g (-1) = ny * nx / 2)
    (g' : GridFn) (hmem : g' ∈ annealTrace Jx Jy ny nx n g r) :
    countVal ny nx g' 1 = ny * nx / 2 ∧ countVal ny nx g' (-1) = ny * nx / 2 :=
  ⟨by rw [countVal_annealTrace hny hnx Jx Jy 1 n g r g' hmem, hb1],
   by rw [countVal_annealTrace hny hnx Jx Jy (-1) n g r g' hmem, hb2]⟩

lemma annealStepGrids_ne_nil (Jx Jy : ℚ) (ny nx : Nat) (g : GridFn) (r : Rng) :
    annealStepGrids Jx Jy ny nx g r ≠ [] := by
  simp only [annealStepGrids]
  split_ifs <;> simp

lemma annealTrace_succ_ne_nil (Jx Jy : ℚ) (ny nx n : Nat) (g : GridFn) (r : Rng) :
    annealTrace Jx Jy ny nx (n + 1) g r ≠ [] := by
  simp only [annealTrace]
  intro h
  exact annealStepGrids_ne_nil Jx Jy ny nx g r (List.append_eq_nil.mp h).1

lemma getD_zero_mem {α : Type} (l : List α) (d : α) (h : l ≠ []) : l.getD 0 d ∈ l := by
  cases l with
  | nil => exact absurd rfl h
  | cons a t => simp

/-- Closed instance of the balance-invariant theorem: a balanced 2 × 2
checkerboard stays balanced at the first materialized grid of a two-iteration
run. -/
theorem anneal_balance_invariant_witness :
    countVal 2 2 ((annealTrace 1 1 2 2 2 (fun r c => if (r + c) % 2 = 0 then 1 else -1)
        ⟨0⟩).getD 0 (fun _ _ => 0)) 1 = 2 ∧
    countVal 2 2 ((annealTrace 1 1 2 2 2 (fun r c => if (r + c) % 2 = 0 then 1 else -1)
        ⟨0⟩).getD 0 (fun _ _ => 0)) (-1) = 2 :=
  anneal_balance_invariant 1 1 (fun r c => if (r + c) % 2 = 0 then 1 else -1) ⟨0⟩ 2
    (by decide) (by decide) (by decide) (by decide) _
    (getD_zero_mem _ _ (annealTrace_succ_ne_nil 1 1 2 2 1 _ _))

/-- C4: the acceptance rule of lines 45-50 of `src/app.py`, characterized over
the embedded random stream. In any iteration whose two drawn sites hold
unequal spins: if the post-swap local pair energy strictly exceeds the
pre-swap one, the iteration ends with the original grid (revert) exactly when
the next uniform draw exceeds `0.05`, and with the swapped grid (keep, the
`p_accept_bad = 0.05` event) when the draw is at most `0.05`; if the post-swap
energy is less than or equal to the pre-swap energy — ties included — the swap
is kept unconditionally and no uniform draw is consumed for the decision. -/
theorem annealStep_acceptance (Jx Jy : ℚ) (ny nx : Nat) (g : GridFn) (r r4 : Rng)
    (p q : Nat × Nat)
    (hd : stepDraws ny nx r = (p, q, r4))
    (hne : g p.1 p.2 ≠ g q.1 q.2) :
    (local_pair_e Jx Jy ny nx (swapSites g p q) p q > local_pair_e Jx Jy ny nx g p q →
      ((rngRandom r4).1 > 5 / 100 → (annealStep Jx Jy ny nx g r).1 = g) ∧
      ((rngRandom r4).1 ≤ 5 / 100 → (annealStep Jx Jy ny nx g r).1 = swapSites g p q)) ∧
    (local_pair_e Jx Jy ny nx (swapSites g p q) p q ≤ local_pair_e Jx Jy ny nx g p q →
      (annealStep Jx Jy ny nx g r).1 = swapSites g p q) := by
  simp only [annealStep, hd]
  refine ⟨fun hgt => ⟨fun hu => ?_, fun hu => ?_⟩, fun hle => ?_⟩
  · rw [if_pos hne, if_pos hgt, if_pos hu, swapSites_involutive]
  · rw [if_pos hne, if_pos hgt, if_neg (not_lt.mpr hu)]
  · rw [if_pos hne, if_neg (not_lt.mpr hle)]

/-- Closed instance of the acceptance-rule theorem: the concrete stream state
`0` on the `8 × 8` grid draws the unequal-spin sites `(1, 6)` and `(7, 4)`, and
the rule's three branches are characterized there. -/
theorem annealStep_acceptance_witness :
    (local_pair_e 1 1 8 8
        (swapSites (fun r c => if (r, c) = (1, 6) then 1 else -1) (1, 6) (7, 4)) (1, 6) (7, 4) >
      local_pair_e 1 1 8 8 (fun r c => if (r, c) = (1, 6) then 1 else -1) (1, 6) (7, 4) →
      ((rngRandom ⟨1449466924⟩).1 > 5 / 100 →
        (annealStep 1 1 8 8 (fun r c => if (r, c) = (1, 6) then 1 else -1) ⟨0⟩).1 =
          fun r c => if (r, c) = (1, 6) then 1 else -1) ∧
      ((rngRandom ⟨1449466924⟩).1 ≤ 5 / 100 →
        (annealStep 1 1 8 8 (fun r c => if (r, c) = (1, 6) then 1 else -1) ⟨0⟩).1 =
          swapSites (fun r c => if (r, c) = (1, 6) then 1 else -1) (1, 6) (7, 4))) ∧
    (local_pair_e 1 1 8 8
        (swapSites (fun r c => if (r, c) = (1, 6) then 1 else -1) (1, 6) (7, 4)) (1, 6) (7, 4) ≤
      local_pair_e 1 1 8 8 (fun r c => if (r, c) = (1, 6) then 1 else -1) (1, 6) (7, 4) →
      (annealStep 1 1 8 8 (fun r c => if (r, c) = (1, 6) then 1 else -1) ⟨0⟩).1 =
        swapSites (fun r c => if (r, c) = (1, 6) then 1 else -1) (1, 6) (7, 4)) :=
  annealStep_acceptance 1 1 8 8 (fun r c => if (r, c) = (1, 6) then 1 else -1) ⟨0⟩
    ⟨1449466924⟩ (1, 6) (7, 4) (by decide) (by decide)

/-- C8: the specified generator contract — `InvalidSizeError` exactly when
`rows * cols` is odd, raised as a pure precondition check (the embedded
operation is a function, so it has no other side effects), and a lattice
returned whenever the product is even. Settled against the spec-modelled
`generate`, since the parametric operation is absent from `src/app.py`. -/
theorem generate_size_check (rows cols seed : Nat) :
    (rows * cols % 2 = 1 → generate rows cols seed = Except.error GenError.InvalidSizeError) ∧
    (rows * cols % 2 = 0 → ∃ g, generate rows cols seed = Except.ok g) := by
  constructor
  · intro h
    simp [generate, h]
  · intro h
    simp only [generate]
    rw [if_neg (by omega)]
    exact ⟨_, rfl⟩

/-- Closed instance of the generator size check: a 3 × 3 request fails with
`InvalidSizeError` while a 2 × 2 request returns a lattice. -/
theorem generate_size_check_witness :
    generate 3 3 0 = Except.error GenError.InvalidSizeError ∧
    ∃ g, generate 2 2 0 = Except.ok g :=
  ⟨(generate_size_check 3 3 0).1 (by decide), (generate_size_check 2 2 0).2 (by decide)⟩

lemma wrapIdx_lt {n : Nat} (hn : 0 < n) (i : Int) : wrapIdx n i < n := by
  unfold wrapIdx
  have h0 : (0 : Int) < (n : Int) := by exact_mod_cast hn
  have h1 : i % (n : Int) < (n : Int) := Int.emod_lt_of_pos i h0
  have h2 : 0 ≤ i % (n : Int) := Int.emod_nonneg i (by omega)
  omega

lemma wrapIdx_neg_one {n : Nat} (hn : 0 < n) : wrapIdx n (-1) = n - 1 := by
  unfold wrapIdx
  have h0 : (0 : Int) < (n : Int) := by exact_mod_cast hn
  have e1 := Int.add_mul_emod_self_left (-1) (n : Int) 1
  rw [show (-1 + (n : Int) * 1 : Int) = (n : Int) - 1 by ring] at e1
  have e2 : ((n : Int) - 1) % (n : Int) = (n : Int) - 1 :=
    Int.emod_eq_of_lt (by omega) (by omega)
  rw [e1] at e2
  rw [e2]
  omega

/-- C9: for every in-range site `(r, c)` of a positive-size grid, the four
neighbor indices computed by the local energy helper — `(c+1) % Nx`,
`(c-1) % Nx`, `(r+1) % Ny`, `(r-1) % Ny` with Python's nonnegative `%` — are
all within grid bounds; at row or column `0` the `-1` offset wraps to the last
index; and `get_local_e` reads the grid exactly at those four wrapped
neighbors, realizing periodic boundary conditions on both axes. -/
theorem get_local_e_neighbors_in_bounds (Jx Jy : ℚ) (ny nx : Nat) (g : GridFn)
    (r c : Nat) (val : Int) (hny : 0 < ny) (hnx : 0 < nx) (hr : r < ny) (hc : c < nx) :
    wrapIdx nx ((c : Int) + 1) < nx ∧ wrapIdx nx ((c : Int) - 1) < nx ∧
    wrapIdx ny ((r : Int) + 1) < ny ∧ wrapIdx ny ((r : Int) - 1) < ny ∧
    (c = 0 → wrapIdx nx ((c : Int) - 1) = nx - 1) ∧
    (r = 0 → wrapIdx ny ((r : Int) - 1) = ny - 1) ∧
    get_local_e Jx Jy ny nx g r c val =
      Jx * (val : ℚ) * ((g r (wrapIdx nx ((c : Int) + 1)) : ℚ) + (g r (wrapIdx nx ((c : Int) - 1)) : ℚ)) +
      Jy * (val : ℚ) * ((g (wrapIdx ny ((r : Int) + 1)) c : ℚ) + (g (wrapIdx ny ((r : Int) - 1)) c : ℚ)) := by
  refine ⟨wrapIdx_lt hnx _, wrapIdx_lt hnx _, wrapIdx_lt hny _, wrapIdx_lt hny _, ?_, ?_, rfl⟩
  · intro h
    subst h
    simpa using wrapIdx_neg_one hnx
  · intro h
    subst h
    simpa using wrapIdx_neg_one hny

/-- Closed instance of the neighbor-bounds theorem at the corner site `(0, 0)`
of the `8 × 8` grid: all four wrapped neighbor indices are in bounds and the
`-1` offsets wrap to index `7`. -/
theorem get_local_e_neighbors_in_bounds_witness :
    wrapIdx 8 (((0 : Nat) : Int) + 1) < 8 ∧ wrapIdx 8 (((0 : Nat) : Int) - 1) < 8 ∧
    wrapIdx 8 (((0 : Nat) : Int) + 1) < 8 ∧ wrapIdx 8 (((0 : Nat) : Int) - 1) < 8 ∧
    ((0 : Nat) = 0 → wrapIdx 8 (((0 : Nat) : Int) - 1) = 8 - 1) ∧
    ((0 : Nat) = 0 → wrapIdx 8 (((0 : Nat) : Int) - 1) = 8 - 1) ∧
    get_local_e 1 1 8 8 (fun _ _ => 1) 0 0 1 =
      1 * ((1 : Int) : ℚ) * (((fun _ _ => (1 : Int)) 0 (wrapIdx 8 (((0 : Nat) : Int) + 1)) : ℚ) +
        ((fun _ _ => (1 : Int)) 0 (wrapIdx 8 (((0 : Nat) : Int) - 1)) : ℚ)) +
      1 * ((1 : Int) : ℚ) * (((fun _ _ => (1 : Int)) (wrapIdx 8 (((0 : Nat) : Int) + 1)) 0 : ℚ) +
        ((fun _ _ => (1 : Int)) (wrapIdx 8 (((0 : Nat) : Int) - 1)) 0 : ℚ)) :=
  get_local_e_neighbors_in_bounds 1 1 8 8 (fun _ _ => 1) 0 0 1
    (by decide) (by decide) (by decide) (by decide)

lemma readH_alloc_lt (h : Heap) (g : GridFn) (a : Nat) (ha : a < h.mem.length) :
    readH (alloc h g).1 a = readH h a := by
  simp only [alloc, readH]
  exact List.getD_append _ _ _ _ ha

lemma readH_alloc_self (h : Heap) (g : GridFn) :
    readH (alloc h g).1 (alloc h g).2 = g := by
  simp only [alloc, readH]
  rw [List.getD_append_right _ _ _ _ (Nat.le_refl _)]
  simp

lemma alloc_length (h : Heap) (g : GridFn) :
    (alloc h g).1.mem.length = h.mem.length + 1 := by
  simp [alloc]

lemma readH_writeH_ne (h : Heap) (w a : Nat) (g : GridFn) (hne : a ≠ w) :
    readH (writeH h w g) a = readH h a := by
  simp only [writeH, readH]
  by_cases ha : a < h.mem.length
  · rw [List.getD_eq_getElem _ _ (by simpa using ha), List.getD_eq_getElem _ _ ha]
    exact List.getElem_set_ne (Ne.symm hne) _
  · rw [List.getD_eq_default _ _ (by simpa using Nat.le_of_not_lt ha),
      List.getD_eq_default _ _ (Nat.le_of_not_lt ha)]

lemma readH_writeH_self (h : Heap) (w : Nat) (g : GridFn) (hw : w < h.mem.length) :
    readH (writeH h w g) w = g := by
  simp only [writeH, readH]
  rw [List.getD_eq_getElem _ _ (by simpa using hw)]
  exact List.getElem_set_self _

lemma writeH_length (h : Heap) (w : Nat) (g : GridFn) :
    (writeH h w g).mem.length = h.mem.length := by
  simp [writeH]

lemma annealIterH_length (Jx Jy : ℚ) :
    ∀ (n w : Nat) (h : Heap) (r : Rng),
      (annealIterH Jx Jy n w h r).1.mem.length = h.mem.length := by
  intro n
  induction n with
  | zero => intro w h r; rfl
  | succ n ih =>
    intro w h r
    simp only [annealIterH]
    rw [ih]
    simp [annealStepH, writeH_length]

lemma annealIterH_readH_ne (Jx Jy : ℚ) :
    ∀ (n w a : Nat) (h : Heap) (r : Rng), a ≠ w →
      readH (annealIterH Jx Jy n w h r).1 a = readH h a := by
  intro n
  induction n with
  | zero => intro w a h r hne; rfl
  | succ n ih =>
    intro w a h r hne
    simp only [annealIterH]
    rw [ih w a _ _ hne]
    exact readH_writeH_ne h w a _ hne

lemma annealIterH_readH_self (Jx Jy : ℚ) :
    ∀ (n w : Nat) (h : Heap) (r : Rng), w < h.mem.length →
      readH (annealIterH Jx Jy n w h r).1 w = (annealIter Jx Jy 8 8 n (readH h w) r).1 ∧
      (annealIterH Jx Jy n w h r).2 = (annealIter Jx Jy 8 8 n (readH h w) r).2 := by
  intro n
  induction n with
  | zero => intro w h r hw; exact ⟨rfl, rfl⟩
  | succ n ih =>
    intro w h r hw
    simp only [annealIterH, annealIter, annealStepH]
    have hw2 : w < (writeH h w (annealStep Jx Jy 8 8 (readH h w) r).1).mem.length := by
      rw [writeH_length]; exact hw
    have hrw : readH (writeH h w (annealStep Jx Jy 8 8 (readH h w) r).1) w =
        (annealStep Jx Jy 8 8 (readH h w) r).1 := readH_writeH_self h w _ hw
    obtain ⟨ih1, ih2⟩ := ih w (writeH h w (annealStep Jx Jy 8 8 (readH h w) r).1)
      (annealStep Jx Jy 8 8 (readH h w) r).2 hw2
    rw [hrw] at ih1 ih2
    exact ⟨ih1, ih2⟩

lemma runSeedsH_spec (Jx Jy : ℚ) (init : Nat → GridFn) :
    ∀ n : Nat,
      (runSeedsH Jx Jy init n).1.mem.length = 2 * n ∧
      (runSeedsH Jx Jy init n).2 = (List.range n).map (fun k => 2 * k + 1) ∧
      ∀ j, j < n → readH (runSeedsH Jx Jy init n).1 (2 * j + 1) = seedFinal Jx Jy init j := by
  intro n
  induction n with
  | zero => exact ⟨rfl, rfl, fun j hj => absurd hj (by omega)⟩
  | succ n ih =>
    obtain ⟨hlen, hcfg, hread⟩ := ih
    set hc := runSeedsH Jx Jy init n with hhc
    set aw := alloc hc.1 (init n) with haw
    set hr := annealIterH Jx Jy 600 aw.2 aw.1 (default_rng n) with hhr
    set ac := alloc hr.1 (readH hr.1 aw.2) with hac
    have hrun : runSeedsH Jx Jy init (n + 1) = (ac.1, hc.2 ++ [ac.2]) := rfl
    have haw2 : aw.2 = 2 * n := by rw [haw]; simp [alloc, hlen]
    have haw1len : aw.1.mem.length = 2 * n + 1 := by rw [haw, alloc_length, hlen]
    have hrlen : hr.1.mem.length = 2 * n + 1 := by rw [hhr, annealIterH_length, haw1len]
    have hw : aw.2 < aw.1.mem.length := by omega
    have hreadw : readH hr.1 aw.2 = seedFinal Jx Jy init n := by
      rw [hhr, (annealIterH_readH_self Jx Jy 600 aw.2 aw.1 (default_rng n) hw).1]
      rw [haw, readH_alloc_self]
      rfl
    have hac2 : ac.2 = 2 * n + 1 := by rw [hac]; simp [alloc, hrlen]
    have haclen : ac.1.mem.length = 2 * n + 2 := by rw [hac, alloc_length, hrlen]
    refine ⟨?_, ?_, ?_⟩
    · rw [hrun]
      show ac.1.mem.length = 2 * (n + 1)
      omega
    · rw [hrun]
      show hc.2 ++ [ac.2] = _
      simp [hcfg, hac2, List.range_succ]
    · intro j hj
      rw [hrun]
      show readH ac.1 (2 * j + 1) = seedFinal Jx Jy init j
      rcases Nat.lt_or_ge j n with hjn | hjn
      · have e1 : readH ac.1 (2 * j + 1) = readH hr.1 (2 * j + 1) := by
          rw [hac]; exact readH_alloc_lt _ _ _ (by omega)
        have e2 : readH hr.1 (2 * j + 1) = readH aw.1 (2 * j + 1) := by
          rw [hhr]; exact annealIterH_readH_ne Jx Jy 600 aw.2 (2 * j + 1) aw.1
            (default_rng n) (by omega)
        have e3 : readH aw.1 (2 * j + 1) = readH hc.1 (2 * j + 1) := by
          rw [haw]; exact readH_alloc_lt _ _ _ (by omega)
        rw [e1, e2, e3]
        exact hread j hjn
      · have hje : j = n := by omega
        subst hje
        have e0 : (2 : Nat) * j + 1 = ac.2 := by omega
        rw [e0, hac, readH_alloc_self]
        exact hreadw

/-- C10: each collected candidate is an independent copy. In the heap model of
the collection phase (one fresh working array per seed, in-place annealing
writes only to that array, then an allocation of a copy whose address is
appended to the collected list), the content at every collected address after
all seeds have run equals that seed's final annealed grid — later seeds'
mutations leave earlier copies untouched — and the collected addresses are
pairwise distinct, so the returned configurations alias no shared mutable
state. -/
theorem runSeedsH_copies_independent (Jx Jy : ℚ) (init : Nat → GridFn) (n j : Nat)
    (hj : j < n) :
    readH (runSeedsH Jx Jy init n).1 ((runSeedsH Jx Jy init n).2.getD j 0) =
      seedFinal Jx Jy init j ∧ (runSeedsH Jx Jy init n).2.Nodup := by
  obtain ⟨hlen, hcfg, hread⟩ := runSeedsH_spec Jx Jy init n
  constructor
  · have hidx : (runSeedsH Jx Jy init n).2.getD j 0 = 2 * j + 1 := by
      rw [hcfg, List.getD_eq_getElem _ _ (by simpa using hj)]
      simp
    rw [hidx]
    exact hread j hj
  · rw [hcfg]
    exact List.Nodup.map (fun a b hab => by omega) (List.nodup_range n)

/-- Closed instance of the copy-independence theorem: a single-seed run whose
collected copy holds that seed's final annealed grid, with a duplicate-free
address list. -/
theorem runSeedsH_copies_independent_witness :
    readH (runSeedsH 1 1 (fun _ _ _ => 1) 1).1 ((runSeedsH 1 1 (fun _ _ _ => 1) 1).2.getD 0 0) =
      seedFinal 1 1 (fun _ _ _ => 1) 0 ∧ (runSeedsH 1 1 (fun _ _ _ => 1) 1).2.Nodup :=
  runSeedsH_copies_independent 1 1 (fun _ _ _ => 1) 1 0 (by decide)
